import Mathlib

/-!
Shallow embedding of the parthenon task-scheduling engine: TaskID (dependency
identifiers), Task (unit of work), TaskList (scan-execute-retire scheduling
loop), from the task_list/tasks.hpp header. The TaskID method bodies and the
TaskStatus enum live in files not present among the sources (tasks.cpp,
basic_types.hpp); those definitions are modelled from the spec, as marked.
-/

namespace Parthenon

/-- Modelled from the spec: the status a Task body reports on each invocation
(the TaskStatus enum of basic_types.hpp is not among the sources): complete
(the task is fully done and should be retired) or incomplete (the task must be
retried on a future scan). -/
inductive TaskStatus where
  | complete
  | incomplete
deriving DecidableEq

/-- Status of one TaskList::DoAvailable scan (enum class TaskListStatus in
tasks.hpp). -/
inductive TaskListStatus where
  | running
  | stuck
  | complete
  | nothing_to_do
deriving DecidableEq

/-- Modelled from the spec: a dependency identifier is a growable sequence of
fixed-width bit blocks; embedded as a natural number whose binary digits are
the bits (class TaskID of tasks.hpp; the method bodies are in tasks.cpp,
which is not among the sources). -/
abbrev TaskID := Nat

/-- Modelled from the spec: construct from an integer index, setting exactly
one bit corresponding to that index (1-based); index 0 yields the zero-bit,
always-satisfied identifier (TaskID::Set and the TaskID(int) constructor). -/
def TaskID.Set (id : Nat) : TaskID := if id = 0 then 0 else 2 ^ (id - 1)

/-- Modelled from the spec: TaskID::clear resets to the zero-bit identifier
(the completed-set is reset when the list is cleared for reuse). -/
def TaskID.clear (_ : TaskID) : TaskID := 0

/-- Modelled from the spec: union, bitwise OR across all underlying blocks,
growing so no bits are lost (TaskID::operator|). -/
def TaskID.union (a b : TaskID) : TaskID := Nat.lor a b

/-- Modelled from the spec: the satisfaction check, called on the
completed-set with the dependency as argument (see the call site at line 179
of tasks.hpp): every bit set in the dependency rhs must also be set in the
completed-set lhs; a zero-bit rhs is trivially satisfied
(TaskID::CheckDependencies). -/
def TaskID.CheckDependencies (lhs rhs : TaskID) : Bool := Nat.land rhs lhs == rhs

/-- Modelled from the spec: OR the given identity's bits into the
completed-set (TaskID::SetFinished). -/
def TaskID.SetFinished (lhs rhs : TaskID) : TaskID := Nat.lor lhs rhs

/-- A Task (BaseTask and its variants in tasks.hpp): own identity, dependency,
invocable body, completion flag. The C++ body is a stateful closure invoked
repeatedly; it is embedded as a pure function of the invocation count, with
ninvoked recording how many times the closure has been invoked so far. -/
structure Task where
  myid : TaskID
  dep : TaskID
  body : Nat → TaskStatus
  ninvoked : Nat
  complete : Bool

def Task.GetID (t : Task) : TaskID := t.myid

def Task.GetDependency (t : Task) : TaskID := t.dep

def Task.SetComplete (t : Task) : Task := { t with complete := true }

def Task.IsComplete (t : Task) : Bool := t.complete

/-- class TaskList of tasks.hpp: the pending tasks, the count of tasks added,
the registered barrier lists, and the completed-set. -/
inductive TaskList : Type where
  | mk (task_list : List Task) (tasks_added : Nat) (dependencies : List TaskList) (tasks_completed : TaskID)

def TaskList.task_list : TaskList → List Task
  | .mk ts _ _ _ => ts

def TaskList.tasks_added : TaskList → Nat
  | .mk _ n _ _ => n

def TaskList.dependencies : TaskList → List TaskList
  | .mk _ _ ds _ => ds

def TaskList.tasks_completed : TaskList → TaskID
  | .mk _ _ _ c => c

def TaskList.IsComplete (l : TaskList) : Bool := l.task_list.isEmpty

def TaskList.Size (l : TaskList) : Nat := l.task_list.length

/-- TaskList::Reset: clear the task count, the pending collection, the
registered barrier lists and the completed-set. -/
def TaskList.Reset : TaskList → TaskList
  | .mk _ _ _ c => .mk [] 0 [] (TaskID.clear c)

/-- TaskList::IsReady: true only when every registered barrier list reports
its own pending collection empty. -/
def TaskList.IsReady (l : TaskList) : Bool :=
  l.dependencies.all fun d => TaskList.IsComplete d

def TaskList.MarkTaskComplete (l : TaskList) (id : TaskID) : TaskList :=
  .mk l.task_list l.tasks_added l.dependencies (TaskID.SetFinished l.tasks_completed id)

/-- TaskList::ClearComplete: erase from the pending collection every task
whose completion flag is set. -/
def TaskList.ClearComplete (l : TaskList) : TaskList :=
  .mk (l.task_list.filter fun t => !(Task.IsComplete t)) l.tasks_added l.dependencies l.tasks_completed

/-- One invocation event: which task ran, with which dependency, and the
completed-set at the moment it was invoked. -/
structure Invocation where
  id : TaskID
  dep : TaskID
  completedBefore : TaskID
deriving DecidableEq

/-- The scan loop of TaskList::DoAvailable: walk the pending tasks in order;
invoke each task whose dependency is satisfied by the current completed-set;
when the invocation reports complete, set the task's completion flag and
union its identity into the completed-set at once, so later tasks of the same
scan see it. Returns the updated tasks, the updated completed-set, and (as
instrumentation only, not state of the source) the trace of invocations. -/
def scanTasks : List Task → TaskID → List Task × TaskID × List Invocation
  | [], completed => ([], completed, [])
  | t :: rest, completed =>
    if TaskID.CheckDependencies completed (Task.GetDependency t) then
      let status := t.body t.ninvoked
      let t1 : Task := { t with ninvoked := t.ninvoked + 1 }
      let inv : Invocation := ⟨Task.GetID t, Task.GetDependency t, completed⟩
      if status = TaskStatus.complete then
        let r := scanTasks rest (TaskID.SetFinished completed (Task.GetID t))
        (Task.SetComplete t1 :: r.1, r.2.1, inv :: r.2.2)
      else
        let r := scanTasks rest completed
        (t1 :: r.1, r.2.1, inv :: r.2.2)
    else
      let r := scanTasks rest completed
      (t :: r.1, r.2.1, r.2.2)

/-- TaskList::DoAvailable: one scan over the pending tasks, then retire the
completed ones (ClearComplete); return complete when the pending collection
is now empty, running otherwise. -/
def TaskList.DoAvailable (l : TaskList) : TaskList × TaskListStatus :=
  let r := scanTasks l.task_list l.tasks_completed
  let l1 := TaskList.ClearComplete (.mk r.1 l.tasks_added l.dependencies r.2.1)
  (l1, if TaskList.IsComplete l1 then TaskListStatus.complete else TaskListStatus.running)

/-- Instrumentation: the invocations one DoAvailable scan performs. -/
def TaskList.DoAvailableTrace (l : TaskList) : List Invocation :=
  (scanTasks l.task_list l.tasks_completed).2.2

/-- TaskList::AddTask: mint the identity from the integer index
tasks_added + 1, append the new pending task, and return the identity. -/
def TaskList.AddTask (l : TaskList) (dep : TaskID) (body : Nat → TaskStatus) : TaskList × TaskID :=
  let id := TaskID.Set (l.tasks_added + 1)
  (.mk (l.task_list ++ [⟨id, dep, body, 0, false⟩]) (l.tasks_added + 1) l.dependencies l.tasks_completed, id)

/-- A freshly constructed TaskList: all members default-initialized. -/
def TaskList.new : TaskList := .mk [] 0 [] 0

/-- Fold a sequence of AddTask calls, collecting the returned identities. -/
def addTasks : TaskList → List (TaskID × (Nat → TaskStatus)) → TaskList × List TaskID
  | l, [] => (l, [])
  | l, s :: rest =>
    let r := TaskList.AddTask l s.1 s.2
    let r2 := addTasks r.1 rest
    (r2.1, r.2 :: r2.2)

/-- Iterate DoAvailable, collecting each scan's status and invocation trace. -/
def runScans : TaskList → Nat → TaskList × List (TaskListStatus × List Invocation)
  | l, 0 => (l, [])
  | l, n + 1 =>
    ((runScans (TaskList.DoAvailable l).1 n).1,
      ((TaskList.DoAvailable l).2, TaskList.DoAvailableTrace l) ::
        (runScans (TaskList.DoAvailable l).1 n).2)

/-- A body that reports complete on every invocation. -/
def bodyComplete : Nat → TaskStatus := fun _ => TaskStatus.complete

/-- Scenario A of the spec: T1 with no dependency, T2 depending on T1's
identity, T3 depending on the manual union of T1's and T2's identities, all
bodies reporting complete. -/
def scenarioA : TaskList :=
  let r1 := TaskList.AddTask TaskList.new (TaskID.Set 0) bodyComplete
  let r2 := TaskList.AddTask r1.1 r1.2 bodyComplete
  let r3 := TaskList.AddTask r2.1 (TaskID.union r1.2 r2.2) bodyComplete
  r3.1

/-- Scenario C of the spec: a single task whose dependency identity was never
added to the list. -/
def orphanList : TaskList :=
  (TaskList.AddTask TaskList.new (TaskID.Set 5) bodyComplete).1

/-- A communication-style body in the spirit of ReceiveBoundaryBuffersTask:
reports incomplete on its first N invocations, complete from then on. -/
def retryBody (N : Nat) : Nat → TaskStatus :=
  fun n => if n < N then TaskStatus.incomplete else TaskStatus.complete

/-- The retrying task of scenario B, after k invocations. -/
def retryTask (N k : Nat) : Task :=
  ⟨TaskID.Set 1, TaskID.Set 0, retryBody N, k, false⟩

/-- A task depending on the retrying task's identity. -/
def depTask : Task :=
  ⟨TaskID.Set 2, TaskID.Set 1, bodyComplete, 0, false⟩

/-- The scenario B list after the retrying task has been invoked k times. -/
def retryState (N k : Nat) : TaskList :=
  .mk [retryTask N k, depTask] 2 [] 0

/-- The scenario B list as built by AddTask: a retrying task with no
dependency, then a task depending on its identity. -/
def retryList (N : Nat) : TaskList :=
  let r1 := TaskList.AddTask TaskList.new (TaskID.Set 0) (retryBody N)
  let r2 := TaskList.AddTask r1.1 r1.2 bodyComplete
  r2.1

theorem runScans_succ (l : TaskList) (n : Nat) :
    runScans l (n + 1) =
      ((runScans (TaskList.DoAvailable l).1 n).1,
        ((TaskList.DoAvailable l).2, TaskList.DoAvailableTrace l) ::
          (runScans (TaskList.DoAvailable l).1 n).2) := rfl

theorem land_self_eq_iff (x c : Nat) :
    Nat.land x c = x ↔ ∀ i, Nat.testBit x i = true → Nat.testBit c i = true := by
  constructor
  · intro h i hx
    have h2 : Nat.testBit (Nat.land x c) i = Nat.testBit x i := by rw [h]
    rw [show Nat.land x c = x &&& c from rfl, Nat.testBit_land, hx] at h2
    simpa using h2.symm
  · intro h
    apply Nat.eq_of_testBit_eq
    intro i
    rw [show Nat.land x c = x &&& c from rfl, Nat.testBit_land]
    cases hx : Nat.testBit x i
    · simp
    · simp [h i hx]

theorem c1_counterexample : ¬ (TaskID.CheckDependencies (TaskID.Set 1) (TaskID.union (TaskID.Set 1) (TaskID.Set 2)) = true ↔
    (TaskID.CheckDependencies (TaskID.Set 1) (TaskID.Set 1) = true ∨
     TaskID.CheckDependencies (TaskID.Set 1) (TaskID.Set 2) = true)) := by decide

theorem c1_union_check (a b c : TaskID) :
    TaskID.CheckDependencies c (TaskID.union a b) =
      (TaskID.CheckDependencies c a && TaskID.CheckDependencies c b) := by
  unfold TaskID.CheckDependencies TaskID.union
  rw [Bool.eq_iff_iff]
  simp only [beq_iff_eq, Bool.and_eq_true]
  rw [land_self_eq_iff, land_self_eq_iff, land_self_eq_iff]
  constructor
  · intro h
    constructor
    · intro i hx
      apply h i
      rw [show Nat.lor a b = a ||| b from rfl, Nat.testBit_lor, hx]
      simp
    · intro i hx
      apply h i
      rw [show Nat.lor a b = a ||| b from rfl, Nat.testBit_lor, hx]
      simp
  · intro h i hi
    rw [show Nat.lor a b = a ||| b from rfl, Nat.testBit_lor] at hi
    rcases (Bool.or_eq_true _ _).mp hi with h1 | h1
    · exact h.1 i h1
    · exact h.2 i h1

theorem c10_reset_clears_barriers (l : TaskList) :
    TaskList.dependencies (TaskList.Reset l) = [] ∧ TaskList.IsReady (TaskList.Reset l) = true := by
  cases l with
  | mk ts n ds c => exact ⟨rfl, rfl⟩



theorem scan_trace_satisfied (ts : List Task) (c : TaskID) :
    ∀ inv ∈ (scanTasks ts c).2.2, TaskID.CheckDependencies inv.completedBefore inv.dep = true := by
  induction ts generalizing c with
  | nil =>
    intro inv h
    simp [scanTasks] at h
  | cons t rest ih =>
    intro inv h
    cases hc : TaskID.CheckDependencies c (Task.GetDependency t) with
    | false =>
      simp only [scanTasks, hc] at h
      exact ih _ inv h
    | true =>
      cases hs : t.body t.ninvoked with
      | complete =>
        simp [scanTasks, hc, hs, List.mem_cons] at h
        rcases h with h | h
        · subst h
          exact hc
        · exact ih _ inv h
      | incomplete =>
        simp [scanTasks, hc, hs, List.mem_cons] at h
        rcases h with h | h
        · subst h
          exact hc
        · exact ih _ inv h

/-- C3: in every DoAvailable scan, a task is invoked only at a point where its
dependency is a subset of the completed-set current at that point; and (for
the concrete scenario A list) a task may still be invoked in the same scan
even though its dependency was not satisfied by the completed-set at the
start of the scan. -/
theorem c3_no_early_execution :
    (∀ l : TaskList, ∀ inv ∈ TaskList.DoAvailableTrace l,
        TaskID.CheckDependencies inv.completedBefore inv.dep = true) ∧
    (∃ inv ∈ TaskList.DoAvailableTrace scenarioA,
        TaskID.CheckDependencies (TaskList.tasks_completed scenarioA) inv.dep = false) := by
  constructor
  · intro l inv h
    exact scan_trace_satisfied _ _ inv h
  · exact ⟨⟨TaskID.Set 2, TaskID.Set 1, TaskID.Set 1⟩, by decide, by decide⟩

theorem c3_witness : TaskID.CheckDependencies (TaskID.Set 1) (TaskID.Set 1) = true :=
  c3_no_early_execution.1 scenarioA ⟨TaskID.Set 2, TaskID.Set 1, TaskID.Set 1⟩ (by decide)

/-- C4: one DoAvailable call on the scenario A list executes all three tasks
in a single scan, retires all of them, and returns the complete status. -/
theorem c4_scenarioA_single_scan :
    (TaskList.DoAvailable scenarioA).2 = TaskListStatus.complete ∧
    TaskList.Size (TaskList.DoAvailable scenarioA).1 = 0 ∧
    List.map Invocation.id (TaskList.DoAvailableTrace scenarioA) =
      [TaskID.Set 1, TaskID.Set 2, TaskID.Set 3] := by
  refine ⟨by decide, by decide, by decide⟩

/-- C2 counterexample: on the scenario C list (orphan dependency), a full
DoAvailable scan with the task still pending returns running, not stuck. -/
theorem c2_counterexample :
    (TaskList.DoAvailable orphanList).2 = TaskListStatus.running ∧
    ¬ (TaskList.DoAvailable orphanList).2 = TaskListStatus.stuck ∧
    TaskList.Size (TaskList.DoAvailable orphanList).1 = 1 := by
  refine ⟨by decide, by decide, by decide⟩

/-- C2 amended: DoAvailable only ever returns complete or running, never
stuck; on the scenario C list the orphan task stays pending and every scan
keeps reporting running. -/
theorem c2_running_not_stuck :
    (∀ l : TaskList,
        (TaskList.DoAvailable l).2 = TaskListStatus.complete ∨
        (TaskList.DoAvailable l).2 = TaskListStatus.running) ∧
    (∀ n : Nat, TaskList.Size (runScans orphanList n).1 = 1 ∧
        ∀ p ∈ (runScans orphanList n).2, p.1 = TaskListStatus.running) := by
  constructor
  · intro l
    simp only [TaskList.DoAvailable]
    split
    · exact Or.inl rfl
    · exact Or.inr rfl
  · intro n
    have hfix : TaskList.DoAvailable orphanList = (orphanList, TaskListStatus.running) := rfl
    induction n with
    | zero =>
      refine ⟨by decide, ?_⟩
      intro p hp
      simp [runScans] at hp
    | succ k ih =>
      constructor
      · simp only [runScans, hfix]
        exact ih.1
      · intro p hp
        simp only [runScans, hfix, List.mem_cons] at hp
        rcases hp with hp | hp
        · rw [hp]
        · exact ih.2 p hp

theorem c2_witness :
    TaskList.Size (runScans orphanList 2).1 = 1 ∧
    (TaskListStatus.running, ([] : List Invocation)).1 = TaskListStatus.running :=
  ⟨(c2_running_not_stuck.2 2).1,
   (c2_running_not_stuck.2 2).2 (TaskListStatus.running, []) (by decide)⟩

theorem scan_forall2 (ts : List Task) (c : TaskID) (h : ∀ t ∈ ts, t.complete = false) :
    List.Forall₂ (fun (t t1 : Task) =>
      t1.myid = t.myid ∧ t1.dep = t.dep ∧ t1.body = t.body ∧
        ((t1.ninvoked = t.ninvoked ∧ t1.complete = false) ∨
          (t1.ninvoked = t.ninvoked + 1 ∧
            t1.complete = (t.body t.ninvoked == TaskStatus.complete))))
      ts (scanTasks ts c).1 := by
  induction ts generalizing c with
  | nil => simp [scanTasks]
  | cons t rest ih =>
    have ht : t.complete = false := h t (List.mem_cons_self t rest)
    have hrest : ∀ u ∈ rest, u.complete = false := fun u hu => h u (List.mem_cons_of_mem t hu)
    cases hc : TaskID.CheckDependencies c (Task.GetDependency t) with
    | false =>
      simp only [scanTasks, hc]
      exact List.Forall₂.cons ⟨rfl, rfl, rfl, Or.inl ⟨rfl, ht⟩⟩ (ih _ hrest)
    | true =>
      cases hs : t.body t.ninvoked with
      | complete =>
        simp only [scanTasks, hc, hs, if_true, ite_true, reduceIte]
        refine List.Forall₂.cons ⟨rfl, rfl, rfl, Or.inr ⟨rfl, ?_⟩⟩ (ih _ hrest)
        simp [Task.SetComplete, hs]
      | incomplete =>
        simp only [scanTasks, hc, hs]
        refine List.Forall₂.cons ⟨rfl, rfl, rfl, Or.inr ⟨rfl, ?_⟩⟩ (ih _ hrest)
        simp [hs, ht]

/-- C6: one DoAvailable scan never erases a pending task mid-scan; each task
keeps its identity, dependency and body, and is either untouched (and still
not complete) or invoked once, its completion flag set exactly when the
invocation reported complete; afterwards exactly the tasks marked complete
are removed from the pending collection. -/
theorem c6_retire_only_complete (ts : List Task) (c : TaskID)
    (h : ∀ t ∈ ts, t.complete = false) :
    List.Forall₂ (fun (t t1 : Task) =>
      t1.myid = t.myid ∧ t1.dep = t.dep ∧ t1.body = t.body ∧
        ((t1.ninvoked = t.ninvoked ∧ t1.complete = false) ∨
          (t1.ninvoked = t.ninvoked + 1 ∧
            t1.complete = (t.body t.ninvoked == TaskStatus.complete))))
      ts (scanTasks ts c).1 ∧
    ∀ l : TaskList, TaskList.task_list (TaskList.DoAvailable l).1 =
      List.filter (fun t => !(Task.IsComplete t))
        (scanTasks (TaskList.task_list l) (TaskList.tasks_completed l)).1 :=
  ⟨scan_forall2 ts c h, fun _ => rfl⟩

theorem c6_witness :
    List.Forall₂ (fun (t t1 : Task) =>
      t1.myid = t.myid ∧ t1.dep = t.dep ∧ t1.body = t.body ∧
        ((t1.ninvoked = t.ninvoked ∧ t1.complete = false) ∨
          (t1.ninvoked = t.ninvoked + 1 ∧
            t1.complete = (t.body t.ninvoked == TaskStatus.complete))))
      [⟨TaskID.Set 1, TaskID.Set 0, bodyComplete, 0, false⟩]
      (scanTasks [⟨TaskID.Set 1, TaskID.Set 0, bodyComplete, 0, false⟩] 0).1 ∧
    ∀ l : TaskList, TaskList.task_list (TaskList.DoAvailable l).1 =
      List.filter (fun t => !(Task.IsComplete t))
        (scanTasks (TaskList.task_list l) (TaskList.tasks_completed l)).1 :=
  c6_retire_only_complete [⟨TaskID.Set 1, TaskID.Set 0, bodyComplete, 0, false⟩] 0
    (by intro t htm; simp only [List.mem_singleton] at htm; subst htm; rfl)

/-- C7: once DoAvailable has returned complete, the pending collection is
empty; a further DoAvailable call leaves the whole TaskList state unchanged,
performs no invocation, and returns complete again. -/
theorem c7_idempotent (l : TaskList)
    (h : (TaskList.DoAvailable l).2 = TaskListStatus.complete) :
    TaskList.DoAvailable (TaskList.DoAvailable l).1 =
      ((TaskList.DoAvailable l).1, TaskListStatus.complete) ∧
    TaskList.DoAvailableTrace (TaskList.DoAvailable l).1 = [] := by
  have h2 : (if TaskList.IsComplete (TaskList.DoAvailable l).1 then TaskListStatus.complete
      else TaskListStatus.running) = TaskListStatus.complete := h
  have hempty : TaskList.task_list (TaskList.DoAvailable l).1 = [] := by
    cases hb : TaskList.IsComplete (TaskList.DoAvailable l).1 with
    | false =>
      rw [hb] at h2
      simp at h2
    | true =>
      have := hb
      rw [TaskList.IsComplete, List.isEmpty_iff] at this
      exact this
  rcases hL : (TaskList.DoAvailable l).1 with ⟨ts, n, ds, cc⟩
  rw [hL] at hempty
  simp only [TaskList.task_list] at hempty
  subst hempty
  exact ⟨rfl, rfl⟩

theorem c7_witness :
    TaskList.DoAvailable (TaskList.DoAvailable TaskList.new).1 =
      ((TaskList.DoAvailable TaskList.new).1, TaskListStatus.complete) ∧
    TaskList.DoAvailableTrace (TaskList.DoAvailable TaskList.new).1 = [] :=
  c7_idempotent TaskList.new (by decide)



theorem addTasks_ids (specs : List (TaskID × (Nat → TaskStatus))) :
    ∀ l : TaskList, (addTasks l specs).2 =
      (List.range specs.length).map (fun i => TaskID.Set (TaskList.tasks_added l + i + 1)) := by
  induction specs with
  | nil =>
    intro l
    simp [addTasks]
  | cons s rest ih =>
    intro l
    have hadded : TaskList.tasks_added (TaskList.AddTask l s.1 s.2).1 =
        TaskList.tasks_added l + 1 := rfl
    simp only [addTasks, List.length_cons, List.range_succ_eq_map, List.map_cons,
      List.map_map, ih, hadded]
    have hfg : ((fun i => TaskID.Set (TaskList.tasks_added l + i + 1)) ∘ Nat.succ) =
        (fun i => TaskID.Set (TaskList.tasks_added l + 1 + i + 1)) := by
      funext i
      simp only [Function.comp]
      congr 1
      omega
    rw [hfg]
    simp only [Nat.add_zero]
    rfl

/-- C8: starting from a freshly reset list, the k-th AddTask call returns the
identity built from the integer index k, whatever the dependency and body
arguments are; and these identities are monotonically increasing. -/
theorem c8_addtask_identity (l : TaskList) (specs : List (TaskID × (Nat → TaskStatus))) :
    (addTasks (TaskList.Reset l) specs).2 =
      (List.range specs.length).map (fun k => TaskID.Set (k + 1)) ∧
    ∀ k, 1 ≤ k → (TaskID.Set k : Nat) < TaskID.Set (k + 1) := by
  constructor
  · have h0 : TaskList.tasks_added (TaskList.Reset l) = 0 := by
      cases l
      rfl
    rw [addTasks_ids, h0]
    simp
  · intro k hk
    rw [TaskID.Set, TaskID.Set, if_neg (by omega), if_neg (by omega)]
    have hsub : k + 1 - 1 = (k - 1) + 1 := by omega
    rw [hsub]
    exact Nat.pow_lt_pow_succ (by norm_num)

theorem c8_witness :
    (addTasks (TaskList.Reset TaskList.new) [(TaskID.Set 0, bodyComplete)]).2 =
      (List.range 1).map (fun k => TaskID.Set (k + 1)) ∧
    (TaskID.Set 1 : Nat) < TaskID.Set (1 + 1) :=
  ⟨(c8_addtask_identity TaskList.new [(TaskID.Set 0, bodyComplete)]).1,
   (c8_addtask_identity TaskList.new [(TaskID.Set 0, bodyComplete)]).2 1 (Nat.le_refl 1)⟩

/-- C9: a Reset list is the freshly constructed list, so replaying any AddTask
sequence mints the same identities and every subsequent DoAvailable run has
the same statuses, invocation traces and final state. -/
theorem c9_reset_replay (l : TaskList) (specs : List (TaskID × (Nat → TaskStatus))) (n : Nat) :
    addTasks (TaskList.Reset l) specs = addTasks TaskList.new specs ∧
    runScans (addTasks (TaskList.Reset l) specs).1 n =
      runScans (addTasks TaskList.new specs).1 n := by
  have hr : TaskList.Reset l = TaskList.new := by
    cases l
    rfl
  rw [hr]
  exact ⟨rfl, rfl⟩



theorem retry_step_lt (N k : Nat) (h : k < N) :
    TaskList.DoAvailable (retryState N k) = (retryState N (k + 1), TaskListStatus.running) ∧
    TaskList.DoAvailableTrace (retryState N k) = [⟨TaskID.Set 1, TaskID.Set 0, 0⟩] := by
  have hb : retryBody N k = TaskStatus.incomplete := by
    simp [retryBody, h]
  have g1 : TaskID.CheckDependencies 0 (TaskID.Set 0) = true := by decide
  have g2 : TaskID.CheckDependencies 0 (TaskID.Set 1) = false := by decide
  constructor
  · simp [TaskList.DoAvailable, TaskList.ClearComplete, TaskList.IsComplete,
      TaskList.task_list, TaskList.tasks_added, TaskList.dependencies, TaskList.tasks_completed,
      scanTasks, retryState, retryTask, depTask, Task.GetDependency, Task.GetID,
      Task.IsComplete, hb, g1, g2]
  · simp [TaskList.DoAvailableTrace, TaskList.task_list, TaskList.tasks_completed,
      scanTasks, retryState, retryTask, depTask, Task.GetDependency, Task.GetID, hb, g1, g2]

theorem retry_step_eq (N : Nat) :
    TaskList.DoAvailable (retryState N N) =
      (TaskList.mk [] 2 []
          (TaskID.SetFinished (TaskID.SetFinished 0 (TaskID.Set 1)) (TaskID.Set 2)),
        TaskListStatus.complete) ∧
    TaskList.DoAvailableTrace (retryState N N) =
      [⟨TaskID.Set 1, TaskID.Set 0, 0⟩,
       ⟨TaskID.Set 2, TaskID.Set 1, TaskID.SetFinished 0 (TaskID.Set 1)⟩] := by
  have hb : retryBody N N = TaskStatus.complete := by
    simp [retryBody]
  have g1 : TaskID.CheckDependencies 0 (TaskID.Set 0) = true := by decide
  have g3 : TaskID.CheckDependencies (TaskID.SetFinished 0 (TaskID.Set 1)) (TaskID.Set 1) = true := by
    decide
  constructor
  · simp [TaskList.DoAvailable, TaskList.ClearComplete, TaskList.IsComplete,
      TaskList.task_list, TaskList.tasks_added, TaskList.dependencies, TaskList.tasks_completed,
      scanTasks, retryState, retryTask, depTask, Task.GetDependency, Task.GetID,
      Task.IsComplete, Task.SetComplete, bodyComplete, hb, g1, g3]
  · simp [TaskList.DoAvailableTrace, TaskList.task_list, TaskList.tasks_completed,
      scanTasks, retryState, retryTask, depTask, Task.GetDependency, Task.GetID,
      Task.SetComplete, bodyComplete, hb, g1, g3]

theorem retry_run (N : Nat) : ∀ j k, k + j = N →
    runScans (retryState N k) (j + 1) =
      (TaskList.mk [] 2 []
          (TaskID.SetFinished (TaskID.SetFinished 0 (TaskID.Set 1)) (TaskID.Set 2)),
        List.replicate j (TaskListStatus.running, [⟨TaskID.Set 1, TaskID.Set 0, 0⟩]) ++
          [(TaskListStatus.complete,
            [⟨TaskID.Set 1, TaskID.Set 0, 0⟩,
             ⟨TaskID.Set 2, TaskID.Set 1, TaskID.SetFinished 0 (TaskID.Set 1)⟩])]) := by
  intro j
  induction j with
  | zero =>
    intro k hk
    have hkN : k = N := by omega
    rw [hkN, runScans_succ, (retry_step_eq N).1, (retry_step_eq N).2]
    dsimp only
    simp [runScans]
  | succ j ih =>
    intro k hk
    have hlt : k < N := by omega
    rw [runScans_succ, (retry_step_lt N k hlt).1, (retry_step_lt N k hlt).2]
    dsimp only
    rw [ih (k + 1) (by omega)]
    simp [List.replicate_succ]

theorem retry_partial (N : Nat) : ∀ k m, m + k ≤ N →
    (runScans (retryState N m) k).1 = retryState N (m + k) := by
  intro k
  induction k with
  | zero =>
    intro m hm
    simp [runScans]
  | succ k ih =>
    intro m hm
    have hlt : m < N := by omega
    rw [runScans_succ, (retry_step_lt N m hlt).1]
    dsimp only
    rw [ih (m + 1) (by omega)]
    congr 1
    omega

/-- C5: the retry law on the scenario B list: a task whose dependency is
satisfied from the first scan and whose body reports incomplete N times and
then complete is invoked exactly once per scan, stays pending through the
first N scans (which all return running), and is retired in scan N + 1,
which invokes the task depending on it for the first time and returns
complete. -/
theorem c5_retry_law (N : Nat) :
    (runScans (retryList N) (N + 1)).2 =
      List.replicate N (TaskListStatus.running, [⟨TaskID.Set 1, TaskID.Set 0, 0⟩]) ++
        [(TaskListStatus.complete,
          [⟨TaskID.Set 1, TaskID.Set 0, 0⟩,
           ⟨TaskID.Set 2, TaskID.Set 1, TaskID.SetFinished 0 (TaskID.Set 1)⟩])] ∧
    TaskList.Size (runScans (retryList N) (N + 1)).1 = 0 ∧
    ∀ k, k ≤ N → TaskList.Size (runScans (retryList N) k).1 = 2 := by
  have hinit : retryList N = retryState N 0 := rfl
  refine ⟨?_, ?_, ?_⟩
  · rw [hinit, retry_run N N 0 (by omega)]
  · rw [hinit, retry_run N N 0 (by omega)]
    rfl
  · intro k hk
    rw [hinit, retry_partial N k 0 (by omega)]
    rfl

theorem c5_witness :
    (runScans (retryList 2) (2 + 1)).2 =
      List.replicate 2 (TaskListStatus.running, [⟨TaskID.Set 1, TaskID.Set 0, 0⟩]) ++
        [(TaskListStatus.complete,
          [⟨TaskID.Set 1, TaskID.Set 0, 0⟩,
           ⟨TaskID.Set 2, TaskID.Set 1, TaskID.SetFinished 0 (TaskID.Set 1)⟩])] ∧
    TaskList.Size (runScans (retryList 2) (2 + 1)).1 = 0 ∧
    TaskList.Size (runScans (retryList 2) 2).1 = 2 :=
  ⟨(c5_retry_law 2).1, (c5_retry_law 2).2.1, (c5_retry_law 2).2.2 2 (Nat.le_refl 2)⟩

end Parthenon
